import Mathlib

/-!
Shallow embedding of the concurrency-critical core of the OnTheSpot pipeline:
the three stage queues of `runtimedata.py` (Python dicts guarded by one
mutex/condition pair each), the Enricher worker loop of `web.py`
(`QueueWorker.run`), and the stealth throttle of `stealth.py`.

Python dicts are modelled as ordered association lists (insertion order is
iteration order; updating an existing key keeps its position, inserting a new
key appends).  Every public helper of `runtimedata.py` runs entirely under the
stage's mutex, so each call is one atomic transition on the queue state; the
blocking wait loops are modelled by an explicit trace of wake events, each
carrying the monotonic time at the loop's remaining-time check and the queue
contents observed after the following `wait`.
-/

namespace OnTheSpot

/-- Ordered association list standing for a Python dict: iteration order is
insertion order, keys are unique. -/
abbrev StageMap (κ α : Type) := List (κ × α)

/-- The keys of a stage map, in iteration order. -/
def mapKeys {κ α : Type} (d : StageMap κ α) : List κ := d.map Prod.fst

/-- Python `d[k] = v`: replace in place when `k` is present, append otherwise. -/
def dictInsert {κ α : Type} [DecidableEq κ] (d : StageMap κ α) (k : κ) (v : α) :
    StageMap κ α :=
  if k ∈ mapKeys d then d.map (fun p => if p.1 = k then (k, v) else p)
  else d ++ [(k, v)]

/-- Python `d.get(k)` / lookup in iteration order. -/
def dictGet {κ α : Type} [DecidableEq κ] (d : StageMap κ α) (k : κ) : Option α :=
  match d with
  | [] => none
  | (k', v) :: rest => if k' = k then some v else dictGet rest k

/-- Outcome of a pop-style call.  `none` means the call is still blocked in
`wait` when the trace of wake events runs out; `some (res, q)` means the call
returned `res` (`none` standing for Python's `(None, None)`) leaving the queue
in state `q`. -/
abbrev PopOutcome (κ α : Type) := Option (Option (κ × α) × StageMap κ α)

/-- One wake event of a condition-variable wait loop: the monotonic time at
which the loop computed `remaining`, and the queue contents observed after the
subsequent `wait` returned. -/
abbrev WaitTrace (κ α : Type) := List (ℚ × StageMap κ α)

/-- The timed wait loop shared by `pop_next_parsing_item`,
`pop_next_pending_item` and `acquire_next_download_item` when `timeout` is not
`None`: `remaining = deadline - time.monotonic()`; return `(None, None)` when
it is `≤ 0`, otherwise wait and re-check the queue, exiting as soon as it is
non-empty.  The deadline is a fixed argument: it was computed once at call
entry. -/
def waitTimed {κ α : Type} (deadline : ℚ) :
    WaitTrace κ α → Option (StageMap κ α)
  | [] => none
  | (now, qNext) :: rest =>
      if deadline - now ≤ 0 then some []
      else if qNext.isEmpty then waitTimed deadline rest
      else some qNext

/-- The untimed wait loop (`timeout is None`): wait until the queue is
non-empty. -/
def waitUntimed {κ α : Type} : WaitTrace κ α → Option (StageMap κ α)
  | [] => none
  | (_, qNext) :: rest =>
      if qNext.isEmpty then waitUntimed rest else some qNext

/-- `pop_next_pending_item(block, timeout)` of `runtimedata.py`, one atomic
call under `pending_condition`.  `q` is the dict at entry, `t0` the monotonic
time at which the deadline is computed, `trace` the wake events of the wait
loop.  Non-blocking on an empty dict returns `(None, None)` at once; blocking
waits until the dict is non-empty or the deadline passes; a non-empty dict has
its first entry (iteration order) removed and returned. -/
def pop_next_pending_item {κ α : Type} (q : StageMap κ α) (block : Bool)
    (timeout : Option ℚ) (t0 : ℚ) (trace : WaitTrace κ α) : PopOutcome κ α :=
  match q with
  | (k, v) :: rest => some (some (k, v), rest)
  | [] =>
      if !block then some (none, [])
      else
        let waited := match timeout with
          | some t => waitTimed (t0 + t) trace
          | none => waitUntimed trace
        match waited with
        | none => none
        | some [] => some (none, [])
        | some ((k, v) :: rest) => some (some (k, v), rest)

/-- `pop_next_parsing_item` of `runtimedata.py`: its body is identical to
`pop_next_pending_item`, acting on the `parsing` dict. -/
def pop_next_parsing_item {κ α : Type} (q : StageMap κ α) (block : Bool)
    (timeout : Option ℚ) (t0 : ℚ) (trace : WaitTrace κ α) : PopOutcome κ α :=
  pop_next_pending_item q block timeout t0 trace

/-- `requeue_pending_item(local_id, item)`: `pending[local_id] = item` under
the lock, then `notify()`. -/
def requeue_pending_item {κ α : Type} [DecidableEq κ] (q : StageMap κ α)
    (local_id : κ) (item : α) : StageMap κ α :=
  dictInsert q local_id item

/-- `enqueue_pending_item(local_id, item)`: `pending[local_id] = item` under
the lock, then `notify()`. -/
def enqueue_pending_item {κ α : Type} [DecidableEq κ] (q : StageMap κ α)
    (local_id : κ) (item : α) : StageMap κ α :=
  dictInsert q local_id item

/-- `enqueue_parsing_item(item_id, item)`: same upsert-and-notify on the
`parsing` dict. -/
def enqueue_parsing_item {κ α : Type} [DecidableEq κ] (q : StageMap κ α)
    (item_id : κ) (item : α) : StageMap κ α :=
  dictInsert q item_id item

/-! ## The Download stage and its claim protocol -/

/-- A `download_queue` record: the boolean claim flag stored under the
`'available'` key (`none` models a dict with no such key, so that
`item.get('available')` is `None`), and the rest of the record. -/
structure DItem (α : Type) where
  available : Option Bool
  payload : α
  deriving DecidableEq, Repr

/-- A download-stage entry is eligible for claiming unless
`item.get('available') is False`. -/
def DItem.eligible {α : Type} (it : DItem α) : Prop := it.available ≠ some false

instance {α : Type} (it : DItem α) : Decidable it.eligible := by
  unfold DItem.eligible; infer_instance

/-- The scan loop of `acquire_next_download_item`: walk the dict in iteration
order, `continue` past entries whose `available` is `False`; at the first
other entry set `item['available'] = False` (mutating the record in place,
hence also in the queue) and return the item; return `None` when the iterator
is exhausted. -/
def acquireScan {κ α : Type} :
    StageMap κ (DItem α) → Option (κ × DItem α) × StageMap κ (DItem α)
  | [] => (none, [])
  | (k, it) :: rest =>
      if it.available = some false then
        let (r, rest') := acquireScan rest
        (r, (k, it) :: rest')
      else
        let it' : DItem α := { it with available := some false }
        (some (k, it'), (k, it') :: rest)

/-- Outcome of `acquire_next_download_item`: `none` when the call is still
blocked in `wait`, otherwise the returned value (`none` standing for Python's
`None`) and the resulting queue. -/
abbrev AcquireOutcome (κ α : Type) :=
  Option (Option (κ × DItem α) × StageMap κ (DItem α))

/-- `acquire_next_download_item(block, timeout)` of `runtimedata.py`, one
atomic call under `download_queue_condition`: when the dict is empty, either
return `None` at once (non-blocking) or run the same wait loop as the pops;
once the dict is non-empty, run the availability scan — which returns `None`
immediately when every entry is claimed, even under `block=True`. -/
def acquire_next_download_item {κ α : Type} (q : StageMap κ (DItem α))
    (block : Bool) (timeout : Option ℚ) (t0 : ℚ)
    (trace : WaitTrace κ (DItem α)) : AcquireOutcome κ α :=
  match q with
  | _ :: _ => some (acquireScan q)
  | [] =>
      if !block then some (none, [])
      else
        let waited := match timeout with
          | some t => waitTimed (t0 + t) trace
          | none => waitUntimed trace
        match waited with
        | none => none
        | some qNext => some (acquireScan qNext)

/-- `add_to_download_queue(local_id, item)`: upsert-and-notify on the
`download_queue` dict. -/
def add_to_download_queue {κ α : Type} [DecidableEq κ]
    (q : StageMap κ (DItem α)) (local_id : κ) (item : DItem α) :
    StageMap κ (DItem α) :=
  dictInsert q local_id item

/-- The keys of the eligible (claimable) entries, in iteration order. -/
def eligibleKeys {κ α : Type} (q : StageMap κ (DItem α)) : List κ :=
  (q.filter fun p => decide p.2.eligible).map Prod.fst

/-- Iterate the atomic claim `n` times (the mutex serialises concurrent
claimers, so any interleaving of `n` claim calls with no other queue
operation is one of these sequences); collect the returned entries. -/
def acquireIter {κ α : Type} :
    ℕ → StageMap κ (DItem α) → List (κ × DItem α) × StageMap κ (DItem α)
  | 0, q => ([], q)
  | n + 1, q =>
      match acquireScan q with
      | (none, q') => ([], q')
      | (some r, q') =>
          let (rs, q'') := acquireIter n q'
          (r :: rs, q'')

/-! ## The Enricher worker (`QueueWorker.run` of `web.py`)

One loop iteration: blocking pop from `pending`; look up an account token and
fetch metadata for the item (both are external collaborators — any exception
either raises lands in the `except` branch); when the metadata is truthy,
build the download record and push it to `download_queue`; on an exception,
requeue `(local_id, item)` unchanged when both were already bound. -/

/-- The fields of a `pending` record that `QueueWorker.run` reads. -/
structure PendingItem where
  item_service : String
  item_type : String
  item_id : String
  parent_category : String
  playlist_name : Option String
  playlist_by : Option String
  playlist_number : Option ℕ
  deriving DecidableEq, Repr

/-- The fields of the collaborator's metadata that `QueueWorker.run` reads. -/
structure Metadata where
  title : String
  artists : String
  image_url : String
  item_url : String
  deriving DecidableEq, Repr

/-- Combined outcome of `get_account_token` plus the
`{service}_get_{type}_metadata` call: an exception, or a returned value —
`none` standing for a falsy (empty) metadata result that raises nothing. -/
abbrev FetchOutcome := Except String (Option Metadata)

/-- The payload (all keys except `'available'`) of the download record built
by `QueueWorker.run` on a successful fetch. -/
structure DownloadPayload (κ : Type) where
  local_id : κ
  item_service : String
  item_type : String
  item_id : String
  item_status : String
  file_path : Option String
  item_name : String
  item_by : String
  parent_category : String
  playlist_name : Option String
  playlist_by : Option String
  playlist_number : Option ℕ
  item_thumbnail : String
  item_url : String
  progress : ℕ
  deriving DecidableEq, Repr

/-- The `download_item` dict literal of `web.py` lines 59–76. -/
def mkDownloadItem {κ : Type} (local_id : κ) (item : PendingItem)
    (md : Metadata) : DItem (DownloadPayload κ) :=
  { available := some true
    payload :=
      { local_id := local_id
        item_service := item.item_service
        item_type := item.item_type
        item_id := item.item_id
        item_status := "Waiting"
        file_path := none
        item_name := md.title
        item_by := md.artists
        parent_category := item.parent_category
        playlist_name := item.playlist_name
        playlist_by := item.playlist_by
        playlist_number := item.playlist_number
        item_thumbnail := md.image_url
        item_url := md.item_url
        progress := 0 } }

/-- One iteration of `QueueWorker.run`, given the `pending` and
`download_queue` states and the collaborator's behaviour on the popped item.
`pop_next_pending_item(block=True)` with no timeout returns only once the
dict is non-empty, so an empty `pending` leaves the worker blocked with both
queues unchanged. -/
def queueWorkerIteration {κ : Type} [DecidableEq κ]
    (pendingQ : StageMap κ PendingItem)
    (downloadQ : StageMap κ (DItem (DownloadPayload κ)))
    (fetch : PendingItem → FetchOutcome) :
    StageMap κ PendingItem × StageMap κ (DItem (DownloadPayload κ)) :=
  match pendingQ with
  | [] => (pendingQ, downloadQ)
  | (local_id, item) :: rest =>
      match fetch item with
      | .error _ => (requeue_pending_item rest local_id item, downloadQ)
      | .ok none => (rest, downloadQ)
      | .ok (some md) =>
          (rest, add_to_download_queue downloadQ local_id
            (mkDownloadItem local_id item md))

/-! ## The stealth throttle (`stealth.py`)

The throttle is a handful of functions over one small JSON file.  The clock
enters as explicit arguments (`today` as a day number, `nowHour`, and
`nowTime = time.time()`); the persisted file is an `Option ThrottleState`
(`none` when missing or unreadable); a write to the file is returned
explicitly as part of each operation's result. -/

/-- The persisted stealth-stats document. -/
structure ThrottleState where
  date : ℤ
  tracks_today : ℕ
  tracks_this_hour : ℕ
  hour : ℕ
  session_tracks : ℕ
  last_download_time : ℚ
  deriving DecidableEq, Repr

/-- `_reset_stats()`: the fresh document for a new day. -/
def reset_stats (today : ℤ) (nowHour : ℕ) : ThrottleState :=
  { date := today
    tracks_today := 0
    tracks_this_hour := 0
    hour := nowHour
    session_tracks := 0
    last_download_time := 0 }

/-- `_load_stats()`: read the file; on a missing/unreadable file or a stored
date different from today, start from `_reset_stats()`. -/
def load_stats (persisted : Option ThrottleState) (today : ℤ) (nowHour : ℕ) :
    ThrottleState :=
  match persisted with
  | some data => if data.date ≠ today then reset_stats today nowHour else data
  | none => reset_stats today nowHour

/-- `get_stealth_stats()`: load, and when the stored hour differs from the
current hour zero the hourly counter and save.  The second component is the
state written to disk by this call, if any. -/
def get_stealth_stats (persisted : Option ThrottleState) (today : ℤ)
    (nowHour : ℕ) : ThrottleState × Option ThrottleState :=
  let stats := load_stats persisted today nowHour
  if stats.hour ≠ nowHour then
    let stats' := { stats with hour := nowHour, tracks_this_hour := 0 }
    (stats', some stats')
  else (stats, none)

/-- `increment_download_count()`: bump all three counters, stamp the download
time, save.  Returns the final state and the list of writes performed (the
hourly-reset write of the inner `get_stealth_stats` call, then its own). -/
def increment_download_count (persisted : Option ThrottleState) (today : ℤ)
    (nowHour : ℕ) (nowTime : ℚ) : ThrottleState × List ThrottleState :=
  let (stats, w) := get_stealth_stats persisted today nowHour
  let stats' := { stats with
    tracks_today := stats.tracks_today + 1
    tracks_this_hour := stats.tracks_this_hour + 1
    session_tracks := stats.session_tracks + 1
    last_download_time := nowTime }
  (stats', w.toList ++ [stats'])

/-- The configuration keys `stealth.py` reads.  `stealth_min_delay` is
`none` when the configured value is absent or fails `float()` conversion
(both fall back to 30). -/
structure StealthConfig where
  stealth_mode_enabled : Bool
  download_delay : ℚ
  stealth_min_delay : Option ℚ
  stealth_session_break_tracks : ℕ
  stealth_session_break_minutes : ℚ
  deriving DecidableEq, Repr

/-- `calculate_stealth_delay(song_duration_ms, service)`: with stealth mode
off or a service other than `"apple_music"`, the global `download_delay`
clamped at 0; otherwise the fixed `stealth_min_delay` clamped at 0. -/
def calculate_stealth_delay (cfg : StealthConfig) (song_duration_ms : ℚ)
    (service : String) : ℚ :=
  if ¬cfg.stealth_mode_enabled ∨ service ≠ "apple_music" then
    max cfg.download_delay 0
  else
    max (cfg.stealth_min_delay.getD 30) 0

/-- `check_session_break()`: nothing when stealth mode is off; otherwise load
the stats and, when `session_tracks` has reached the configured threshold,
zero it, save, and return a break of `break_minutes * 60 * u` seconds where
`u` is `random.uniform(0.8, 1.2)`.  The second component lists the writes
performed (including any hourly-reset write of the inner
`get_stealth_stats`). -/
def check_session_break (cfg : StealthConfig) (persisted : Option ThrottleState)
    (today : ℤ) (nowHour : ℕ) (u : ℚ) :
    (Bool × ℚ) × List ThrottleState :=
  if ¬cfg.stealth_mode_enabled then ((false, 0), [])
  else
    let (stats, w) := get_stealth_stats persisted today nowHour
    if stats.session_tracks ≥ cfg.stealth_session_break_tracks then
      let stats' := { stats with session_tracks := 0 }
      ((true, cfg.stealth_session_break_minutes * 60 * u),
        w.toList ++ [stats'])
    else ((false, 0), w.toList)

/-! ## Lemmas about the claim scan -/

/-- When every entry is already claimed, the scan exhausts the iterator and
returns `None`, leaving the queue untouched. -/
lemma acquireScan_all_claimed {κ α : Type} (q : StageMap κ (DItem α))
    (h : ∀ p ∈ q, p.2.available = some false) : acquireScan q = (none, q) := by
  induction q with
  | nil => rfl
  | cons p rest ih =>
      obtain ⟨k, it⟩ := p
      have hit : it.available = some false := h (k, it) (List.mem_cons_self _ _)
      have hrest : acquireScan rest = (none, rest) :=
        ih fun p hp => h p (List.mem_cons_of_mem _ hp)
      simp [acquireScan, hit, hrest]

/-- Structural characterisation of one scan: either no entry is eligible and
the scan returns `None` with the queue unchanged, or the scan claims exactly
the first eligible key, the claimed copy carries `available = False`, and the
eligible keys of the resulting queue are the remaining ones. -/
lemma acquireScan_spec {κ α : Type} (q : StageMap κ (DItem α)) :
    (eligibleKeys q = [] ∧ acquireScan q = (none, q)) ∨
    (∃ k ks it, eligibleKeys q = k :: ks ∧
      (acquireScan q).1 = some (k, it) ∧ it.available = some false ∧
      eligibleKeys (acquireScan q).2 = ks) := by
  induction q with
  | nil => exact Or.inl ⟨rfl, rfl⟩
  | cons p rest ih =>
      obtain ⟨k0, it0⟩ := p
      by_cases h0 : it0.available = some false
      · have hne : ¬it0.eligible := by simp [DItem.eligible, h0]
        have hkeys : eligibleKeys ((k0, it0) :: rest) = eligibleKeys rest := by
          simp [eligibleKeys, List.filter_cons, hne]
        rcases ih with ⟨hnil, hscan⟩ | ⟨k, ks, it, hks, hfst, hav, hrest⟩
        · refine Or.inl ⟨by rw [hkeys, hnil], ?_⟩
          simp [acquireScan, h0, hscan]
        · refine Or.inr ⟨k, ks, it, by rw [hkeys, hks], ?_, hav, ?_⟩
          · simp [acquireScan, h0, hfst]
          · have hne2 : ¬it0.eligible := hne
            simp [acquireScan, h0, eligibleKeys, List.filter_cons, hne2]
            have : eligibleKeys (acquireScan rest).2 = ks := hrest
            simpa [eligibleKeys] using this
      · have helig : it0.eligible := h0
        refine Or.inr ⟨k0, eligibleKeys rest,
          { it0 with available := some false }, ?_, ?_, rfl, ?_⟩
        · simp [eligibleKeys, List.filter_cons, helig]
        · simp [acquireScan, h0]
        · have hcl : ¬(DItem.eligible { it0 with available := some false }) := by
            simp [DItem.eligible]
          simp [acquireScan, h0, eligibleKeys, List.filter_cons, hcl]

/-- Iterated claims return exactly the first `n` eligible keys, in order. -/
lemma acquireIter_keys {κ α : Type} (n : ℕ) (q : StageMap κ (DItem α)) :
    ((acquireIter n q).1).map Prod.fst = (eligibleKeys q).take n := by
  induction n generalizing q with
  | zero => simp [acquireIter]
  | succ n ih =>
      rcases acquireScan_spec q with ⟨hnil, hscan⟩ | ⟨k, ks, it, hks, hfst, _, hrest⟩
      · simp [acquireIter, hscan, hnil]
      · have hq : acquireScan q = (some (k, it), (acquireScan q).2) := by
          rw [← hfst]
        rw [hks]
        simp only [acquireIter, List.take_succ_cons]
        rw [hq]
        simp only [List.map_cons]
        rw [ih, hrest]

/-- The eligible keys form a sublist of the queue's keys. -/
lemma eligibleKeys_sublist {κ α : Type} (q : StageMap κ (DItem α)) :
    List.Sublist (eligibleKeys q) (mapKeys q) :=
  (List.filter_sublist q).map Prod.fst

/-! ## Lemmas about dict upsert -/

lemma dictGet_append_single {κ α : Type} [DecidableEq κ]
    (d : StageMap κ α) (k : κ) (v : α) (h : k ∉ mapKeys d) :
    dictGet (d ++ [(k, v)]) k = some v := by
  induction d with
  | nil => simp [dictGet]
  | cons p rest ih =>
      have hk : p.1 ≠ k := by
        intro hc
        exact h (by simp [mapKeys, hc.symm])
      have hrest : k ∉ mapKeys rest := fun hc => h (by simp [mapKeys] at hc ⊢; tauto)
      cases p with
      | mk k' v' =>
          simp only [List.cons_append, dictGet]
          rw [if_neg (by simpa using hk)]
          exact ih hrest

lemma dictGet_update {κ α : Type} [DecidableEq κ]
    (d : StageMap κ α) (k : κ) (v : α) (h : k ∈ mapKeys d) :
    dictGet (d.map fun p => if p.1 = k then (k, v) else p) k = some v := by
  induction d with
  | nil => simp [mapKeys] at h
  | cons p rest ih =>
      cases p with
      | mk k' v' =>
          by_cases hk : k' = k
          · subst hk
            have hmap : ((k', v') :: rest).map
                  (fun p => if p.1 = k' then (k', v) else p)
                = (k', v) :: rest.map (fun p => if p.1 = k' then (k', v) else p) := by
              simp
            rw [hmap]
            simp [dictGet]
          · have hmem : k ∈ mapKeys rest := by
              simp [mapKeys] at h
              rcases h with h | h
              · exact absurd h.symm hk
              · simpa [mapKeys] using h
            simp only [List.map_cons]
            rw [if_neg (by simpa using hk)]
            simp only [dictGet]
            rw [if_neg hk]
            exact ih hmem

/-- Upserting `k ↦ v` makes `k` look up to `v`. -/
lemma dictGet_dictInsert {κ α : Type} [DecidableEq κ]
    (d : StageMap κ α) (k : κ) (v : α) :
    dictGet (dictInsert d k v) k = some v := by
  unfold dictInsert
  by_cases h : k ∈ mapKeys d
  · rw [if_pos h]; exact dictGet_update d k v h
  · rw [if_neg h]; exact dictGet_append_single d k v h

/-! ## Claim theorems -/

/-- C1: every call to `acquire_next_download_item` holds
`download_queue_condition`'s mutex for its whole body, so any concurrent
execution of claim calls is serialised into a sequence of atomic
`acquireScan` transitions (`acquireIter`).  For any Download-stage map with
distinct keys: the keys returned by any number of serialised claim calls are
exactly the first `n` claimable keys, hence pairwise distinct (no two claims
ever return the same key), each key is claimed at most once, and each key
whose `available` flag is `True` at the start of the cycle is claimed exactly
once when enough calls run. -/
theorem C1_claim_atomic_test_and_set {κ α : Type} [DecidableEq κ]
    (q : StageMap κ (DItem α)) (n : ℕ) (hnd : (mapKeys q).Nodup) :
    ((acquireIter n q).1.map Prod.fst = (eligibleKeys q).take n) ∧
    ((acquireIter n q).1.map Prod.fst).Nodup ∧
    (∀ k : κ, ((acquireIter n q).1.map Prod.fst).count k ≤ 1) ∧
    (∀ k it, (k, it) ∈ q → it.available = some true →
      (eligibleKeys q).length ≤ n →
      ((acquireIter n q).1.map Prod.fst).count k = 1) := by
  have hkeys := acquireIter_keys n q
  have hndElig : (eligibleKeys q).Nodup :=
    hnd.sublist (eligibleKeys_sublist q)
  have hndTake : ((eligibleKeys q).take n).Nodup :=
    hndElig.sublist (List.take_sublist n _)
  refine ⟨hkeys, by rw [hkeys]; exact hndTake, ?_, ?_⟩
  · intro k
    rw [hkeys]
    exact List.nodup_iff_count_le_one.mp hndTake k
  · intro k it hmem hav hlen
    rw [hkeys, List.take_of_length_le hlen]
    have helig : k ∈ eligibleKeys q := by
      refine List.mem_map.mpr ⟨(k, it), ?_, rfl⟩
      refine List.mem_filter.mpr ⟨hmem, ?_⟩
      simp [DItem.eligible, hav]
    exact List.count_eq_one_of_mem hndElig helig

/-- Witness for C1 on a concrete three-entry queue (keys 1, 2, 3; key 2
already claimed): two calls claim keys 1 and 3, each exactly once. -/
theorem C1_claim_atomic_test_and_set_witness :
    ((acquireIter 2 [(1, ⟨some true, ()⟩), (2, ⟨some false, ()⟩),
        (3, ⟨some true, ()⟩)]).1.map Prod.fst
      = (eligibleKeys [(1, (⟨some true, ()⟩ : DItem Unit)),
          (2, ⟨some false, ()⟩), (3, ⟨some true, ()⟩)]).take 2) ∧
    (((acquireIter 2 [(1, (⟨some true, ()⟩ : DItem Unit)),
        (2, ⟨some false, ()⟩), (3, ⟨some true, ()⟩)]).1.map Prod.fst).count 1
      = 1) := by
  have h := C1_claim_atomic_test_and_set
    (κ := ℕ) (α := Unit)
    [(1, ⟨some true, ()⟩), (2, ⟨some false, ()⟩), (3, ⟨some true, ()⟩)] 2
    (by decide)
  exact ⟨h.1, h.2.2.2 1 ⟨some true, ()⟩ (by decide) rfl (by decide)⟩

/-- C2: on a non-empty Download map, `acquire_next_download_item` ignores
`block`/`timeout` and runs the scan immediately; the scan skips exactly the
entries with `available = False`, flips the first eligible entry's flag to
`False` and returns it in place; and when every entry is claimed it returns
`None` with the queue unchanged — immediately, even under `block = True`. -/
theorem C2_scan_skips_claimed_and_never_blocks {κ α : Type}
    (q : StageMap κ (DItem α)) (hne : q ≠ []) :
    (∀ (block : Bool) (timeout : Option ℚ) (t0 : ℚ)
        (trace : WaitTrace κ (DItem α)),
      acquire_next_download_item q block timeout t0 trace
        = some (acquireScan q)) ∧
    (∀ (a b : StageMap κ (DItem α)) (k : κ) (it : DItem α),
      q = a ++ (k, it) :: b → (∀ p ∈ a, p.2.available = some false) →
      it.eligible →
      acquireScan q = (some (k, { it with available := some false }),
        a ++ (k, { it with available := some false }) :: b)) ∧
    ((∀ p ∈ q, p.2.available = some false) → acquireScan q = (none, q)) := by
  refine ⟨?_, ?_, acquireScan_all_claimed q⟩
  · intro block timeout t0 trace
    cases q with
    | nil => exact absurd rfl hne
    | cons p rest => rfl
  · intro a b k it hq hskip helig
    subst hq
    clear hne
    induction a with
    | nil =>
        have h0 : ¬it.available = some false := helig
        simp [acquireScan, h0]
    | cons p rest ih =>
        have hp : p.2.available = some false := hskip p (List.mem_cons_self _ _)
        have hrest := ih fun x hx => hskip x (List.mem_cons_of_mem _ hx)
        obtain ⟨k0, it0⟩ := p
        simp only [List.cons_append, acquireScan]
        simp only at hp
        rw [if_pos hp]
        simp only [List.append_eq]
        rw [hrest]

/-- Witness for C2 on an all-claimed two-entry queue: the call returns `None`
at once even with `block = True`. -/
theorem C2_scan_skips_claimed_and_never_blocks_witness :
    acquire_next_download_item
        [(1, (⟨some false, ()⟩ : DItem Unit)), (2, ⟨some false, ()⟩)]
        true none 0 []
      = some (none, [(1, ⟨some false, ()⟩), (2, ⟨some false, ()⟩)]) := by
  have h := C2_scan_skips_claimed_and_never_blocks
    (κ := ℕ) (α := Unit)
    [(1, ⟨some false, ()⟩), (2, ⟨some false, ()⟩)] (by decide)
  rw [h.1 true none 0 [], h.2.2 (by decide)]

/-- On a trace whose every wake still sees an empty queue, the timed wait
loop returns (with the queue empty) exactly when some remaining-time check
happens at or after the fixed deadline, and stays blocked exactly when every
check happens strictly before it. -/
lemma waitTimed_empty_trace {κ α : Type} (deadline : ℚ)
    (trace : WaitTrace κ α) (hempty : ∀ e ∈ trace, e.2 = []) :
    (waitTimed deadline trace = some ([] : StageMap κ α)
        ↔ ∃ e ∈ trace, deadline ≤ e.1) ∧
    (waitTimed deadline trace = none ↔ ∀ e ∈ trace, e.1 < deadline) := by
  induction trace with
  | nil => simp [waitTimed]
  | cons e rest ih =>
      obtain ⟨now, qNext⟩ := e
      have hq : qNext = [] := hempty (now, qNext) (List.mem_cons_self _ _)
      subst hq
      have ihr := ih fun x hx => hempty x (List.mem_cons_of_mem _ hx)
      by_cases hd : deadline - now ≤ 0
      · have hle : deadline ≤ now := by linarith
        have hsome : waitTimed deadline ((now, ([] : StageMap κ α)) :: rest)
            = some [] := by simp [waitTimed, hd]
        refine ⟨?_, ?_⟩
        · rw [hsome]
          exact iff_of_true rfl ⟨(now, []), List.mem_cons_self _ _, hle⟩
        · rw [hsome]
          refine iff_of_false (by simp) ?_
          intro hall
          exact absurd (hall (now, []) (List.mem_cons_self _ _))
            (not_lt.mpr hle)
      · have hlt : now < deadline := by
          by_contra hc
          exact hd (by linarith [not_lt.mp hc])
        constructor
        · rw [show waitTimed deadline ((now, ([] : StageMap κ α)) :: rest)
              = waitTimed deadline rest by simp [waitTimed, hd]]
          rw [ihr.1]
          constructor
          · intro ⟨x, hx, hxd⟩; exact ⟨x, List.mem_cons_of_mem _ hx, hxd⟩
          · intro ⟨x, hx, hxd⟩
            rcases List.mem_cons.mp hx with hx | hx
            · subst hx; exact absurd hxd (not_le.mpr hlt)
            · exact ⟨x, hx, hxd⟩
        · rw [show waitTimed deadline ((now, ([] : StageMap κ α)) :: rest)
              = waitTimed deadline rest by simp [waitTimed, hd]]
          rw [ihr.2]
          constructor
          · intro h x hx
            rcases List.mem_cons.mp hx with hx | hx
            · subst hx; exact hlt
            · exact h x hx
          · intro h x hx; exact h x (List.mem_cons_of_mem _ hx)

/-- C3: `pop_next_pending_item` (and the identical `pop_next_parsing_item`)
returns `(None, None)` at once when called non-blocking on an empty dict;
called blocking with a timeout on a dict that stays empty, it returns
`(None, None)` exactly when a wake's remaining-time check reaches the single
deadline `t0 + timeout` fixed at call entry (and is still waiting exactly
when every check falls short of it); and on a non-empty dict it removes and
returns the first entry in iteration order, whatever `block` and `timeout`
are. -/
theorem C3_pop_empty_timeout_and_fifo {κ α : Type} :
    (∀ (timeout : Option ℚ) (t0 : ℚ) (trace : WaitTrace κ α),
      pop_next_pending_item ([] : StageMap κ α) false timeout t0 trace
        = some (none, [])) ∧
    (∀ (t : ℚ) (t0 : ℚ) (trace : WaitTrace κ α),
      (∀ e ∈ trace, e.2 = []) →
      ((pop_next_pending_item ([] : StageMap κ α) true (some t) t0 trace
          = some (none, []) ↔ ∃ e ∈ trace, t0 + t ≤ e.1) ∧
       (pop_next_pending_item ([] : StageMap κ α) true (some t) t0 trace
          = none ↔ ∀ e ∈ trace, e.1 < t0 + t))) ∧
    (∀ (k : κ) (v : α) (rest : StageMap κ α) (block : Bool)
        (timeout : Option ℚ) (t0 : ℚ) (trace : WaitTrace κ α),
      pop_next_pending_item ((k, v) :: rest) block timeout t0 trace
        = some (some (k, v), rest)) ∧
    (∀ (q : StageMap κ α) (block : Bool) (timeout : Option ℚ) (t0 : ℚ)
        (trace : WaitTrace κ α),
      pop_next_parsing_item q block timeout t0 trace
        = pop_next_pending_item q block timeout t0 trace) := by
  refine ⟨fun timeout t0 trace => rfl, ?_, fun k v rest block timeout t0 trace => rfl,
    fun q block timeout t0 trace => rfl⟩
  intro t t0 trace hempty
  have hw := waitTimed_empty_trace (κ := κ) (α := α) (t0 + t) trace hempty
  constructor
  · rw [show pop_next_pending_item ([] : StageMap κ α) true (some t) t0 trace
        = (match waitTimed (t0 + t) trace with
           | none => none
           | some [] => some (none, [])
           | some ((k, v) :: rest) => some (some (k, v), rest)) from rfl]
    constructor
    · intro h
      rcases hcase : waitTimed (κ := κ) (α := α) (t0 + t) trace with _ | q
      · rw [hcase] at h; exact absurd h (by simp)
      · cases q with
        | nil => exact hw.1.mp hcase
        | cons p rest => rw [hcase] at h; simp at h
    · intro h
      rw [hw.1.mpr h]
  · rw [show pop_next_pending_item ([] : StageMap κ α) true (some t) t0 trace
        = (match waitTimed (t0 + t) trace with
           | none => none
           | some [] => some (none, [])
           | some ((k, v) :: rest) => some (some (k, v), rest)) from rfl]
    constructor
    · intro h
      rcases hcase : waitTimed (κ := κ) (α := α) (t0 + t) trace with _ | q
      · exact hw.2.mp hcase
      · cases q with
        | nil => rw [hcase] at h; simp at h
        | cons p rest => rw [hcase] at h; simp at h
    · intro h
      rw [hw.2.mpr h]

/-- Witness for C3: a blocking pop on an empty queue with timeout 5 entered
at time 0 times out at the wake occurring at time 6, and is still blocked
when the only wake occurs at time 2. -/
theorem C3_pop_empty_timeout_and_fifo_witness :
    (pop_next_pending_item ([] : StageMap ℕ ℕ) true (some 5) 0 [(6, [])]
      = some (none, [])) ∧
    (pop_next_pending_item ([] : StageMap ℕ ℕ) true (some 5) 0 [(2, [])]
      = none) := by
  constructor
  · exact ((C3_pop_empty_timeout_and_fifo (κ := ℕ) (α := ℕ)).2.1 5 0 [(6, [])]
      (by decide)).1.mpr ⟨(6, []), by simp, by norm_num⟩
  · exact ((C3_pop_empty_timeout_and_fifo (κ := ℕ) (α := ℕ)).2.1 5 0 [(2, [])]
      (by decide)).2.mpr (by intro e he; simp at he; subst he; norm_num)

/-- C4: `requeue_pending_item` is literally `pending[local_id] = item` plus a
notify — the same upsert as `enqueue_pending_item`, with no duplicate check
and no transformation of the record: after requeuing, the stored record under
that key is the original one, and popping it back out of an otherwise empty
Pending stage returns the identical record. -/
theorem C4_requeue_roundtrip_fidelity {κ α : Type} [DecidableEq κ]
    (q : StageMap κ α) (k : κ) (r : α) :
    (requeue_pending_item q k r = enqueue_pending_item q k r) ∧
    (dictGet (requeue_pending_item q k r) k = some r) ∧
    (∀ (block : Bool) (timeout : Option ℚ) (t0 : ℚ) (trace : WaitTrace κ α),
      pop_next_pending_item (requeue_pending_item ([] : StageMap κ α) k r)
          block timeout t0 trace
        = some (some (k, r), [])) := by
  refine ⟨rfl, dictGet_dictInsert q k r, ?_⟩
  intro block timeout t0 trace
  have h : requeue_pending_item ([] : StageMap κ α) k r = [(k, r)] := by
    simp [requeue_pending_item, dictInsert, mapKeys]
  rw [h]
  rfl

/-- C5: on a successful, truthy metadata fetch, one `QueueWorker.run`
iteration pushes to the Download stage exactly the built record, whose
`available` is `True`, `item_status` is `"Waiting"` and `progress` is `0`;
on an exception after the pending item was popped, it requeues the original
`(local_id, item)` pair unchanged, so the item is still retrievable from the
Pending stage. -/
theorem C5_enricher_success_and_exception_paths {κ : Type} [DecidableEq κ]
    (local_id : κ) (item : PendingItem) (rest : StageMap κ PendingItem)
    (dlQ : StageMap κ (DItem (DownloadPayload κ)))
    (fetch : PendingItem → FetchOutcome) :
    (∀ md : Metadata, fetch item = .ok (some md) →
      queueWorkerIteration ((local_id, item) :: rest) dlQ fetch
          = (rest, add_to_download_queue dlQ local_id
              (mkDownloadItem local_id item md)) ∧
      (mkDownloadItem local_id item md).available = some true ∧
      (mkDownloadItem local_id item md).payload.item_status = "Waiting" ∧
      (mkDownloadItem local_id item md).payload.progress = 0) ∧
    (∀ e : String, fetch item = .error e →
      queueWorkerIteration ((local_id, item) :: rest) dlQ fetch
          = (requeue_pending_item rest local_id item, dlQ) ∧
      dictGet (requeue_pending_item rest local_id item) local_id
          = some item) := by
  constructor
  · intro md hmd
    refine ⟨?_, rfl, rfl, rfl⟩
    simp [queueWorkerIteration, hmd]
  · intro e he
    refine ⟨?_, dictGet_dictInsert rest local_id item⟩
    simp [queueWorkerIteration, he]

/-- Witness for C5 with key 7 and concrete records: the success path pushes
the built record and the exception path requeues the original item. -/
theorem C5_enricher_success_and_exception_paths_witness :
    (queueWorkerIteration
        [((7 : ℕ), PendingItem.mk "spotify" "track" "id1" "cat" none none none)]
        [] (fun _ => .ok (some (Metadata.mk "T" "A" "img" "url")))
      = ([], add_to_download_queue [] 7
          (mkDownloadItem 7
            (PendingItem.mk "spotify" "track" "id1" "cat" none none none)
            (Metadata.mk "T" "A" "img" "url")))) ∧
    (queueWorkerIteration
        [((7 : ℕ), PendingItem.mk "spotify" "track" "id1" "cat" none none none)]
        [] (fun _ => .error "boom")
      = (requeue_pending_item [] 7
          (PendingItem.mk "spotify" "track" "id1" "cat" none none none), [])) := by
  constructor
  · exact ((C5_enricher_success_and_exception_paths 7
      (PendingItem.mk "spotify" "track" "id1" "cat" none none none) [] []
      (fun _ => .ok (some (Metadata.mk "T" "A" "img" "url")))).1
      (Metadata.mk "T" "A" "img" "url") rfl).1
  · exact ((C5_enricher_success_and_exception_paths 7
      (PendingItem.mk "spotify" "track" "id1" "cat" none none none) [] []
      (fun _ => .error "boom")).2 "boom" rfl).1

/-- C10: when the collaborator returns a falsy metadata value without
raising, the iteration neither requeues nor pushes: the popped item is gone
from the Pending stage (its key no longer occurs there, given the dict's
distinct keys) and the Download stage is left exactly as it was, so a key
absent from it stays absent. -/
theorem C10_falsy_metadata_drops_item {κ : Type} [DecidableEq κ]
    (local_id : κ) (item : PendingItem) (rest : StageMap κ PendingItem)
    (dlQ : StageMap κ (DItem (DownloadPayload κ)))
    (fetch : PendingItem → FetchOutcome)
    (hfetch : fetch item = .ok none)
    (hnd : (mapKeys ((local_id, item) :: rest)).Nodup) :
    queueWorkerIteration ((local_id, item) :: rest) dlQ fetch = (rest, dlQ) ∧
    local_id ∉ mapKeys rest ∧
    (local_id ∉ mapKeys dlQ →
      local_id ∉ mapKeys
        (queueWorkerIteration ((local_id, item) :: rest) dlQ fetch).2) := by
  have heq : queueWorkerIteration ((local_id, item) :: rest) dlQ fetch
      = (rest, dlQ) := by
    simp [queueWorkerIteration, hfetch]
  have hnotin : local_id ∉ mapKeys rest := by
    have : (local_id :: mapKeys rest).Nodup := by simpa [mapKeys] using hnd
    exact (List.nodup_cons.mp this).1
  exact ⟨heq, hnotin, fun h => by rw [heq]; exact h⟩

/-- Witness for C10: the concrete item under key 7 vanishes from both
queues when the fetch returns a falsy result. -/
theorem C10_falsy_metadata_drops_item_witness :
    queueWorkerIteration
        [((7 : ℕ), PendingItem.mk "spotify" "track" "id1" "cat" none none none)]
        [] (fun _ => .ok none)
      = ([], []) ∧
    (7 : ℕ) ∉ mapKeys ([] : StageMap ℕ PendingItem) := by
  have h := C10_falsy_metadata_drops_item 7
    (PendingItem.mk "spotify" "track" "id1" "cat" none none none) [] []
    (fun _ => .ok none) rfl (by decide)
  exact ⟨h.1, h.2.1⟩

/-- C6: `get_stealth_stats` on a persisted document: a stored date different
from today resets the daily counters (`tracks_today = 0`, `date` = today); a
stored hour different from the current hour leaves `tracks_this_hour = 0`;
and with both the date and the hour current, the stored document is returned
unchanged and nothing is written. -/
theorem C6_stats_date_and_hour_reset (d : ThrottleState) (today : ℤ)
    (nowHour : ℕ) :
    (d.date ≠ today →
      (get_stealth_stats (some d) today nowHour).1.tracks_today = 0 ∧
      (get_stealth_stats (some d) today nowHour).1.date = today) ∧
    (d.hour ≠ nowHour →
      (get_stealth_stats (some d) today nowHour).1.tracks_this_hour = 0) ∧
    (d.date = today → d.hour = nowHour →
      (get_stealth_stats (some d) today nowHour).1 = d ∧
      (get_stealth_stats (some d) today nowHour).2 = none) := by
  by_cases hd : d.date = today
  · by_cases hh : d.hour = nowHour
    · refine ⟨fun hc => absurd hd hc, fun hc => absurd hh hc, fun _ _ => ⟨?_, ?_⟩⟩
      · simp [get_stealth_stats, load_stats, hd, hh]
      · simp [get_stealth_stats, load_stats, hd, hh]
    · refine ⟨fun hc => absurd hd hc, fun _ => ?_, fun _ hc => absurd hc hh⟩
      simp [get_stealth_stats, load_stats, hd, hh]
  · refine ⟨fun _ => ⟨?_, ?_⟩, fun _ => ?_, fun hc => absurd hc hd⟩
    all_goals simp [get_stealth_stats, load_stats, reset_stats, hd]

/-- Witness for C6, which is exactly the spec's P4 scenario: yesterday's
document with `tracks_today = 50` comes back with `tracks_today = 0` and
today's date. -/
theorem C6_stats_date_and_hour_reset_witness :
    (get_stealth_stats (some ⟨0, 50, 7, 3, 9, 2⟩) 1 3).1.tracks_today = 0 ∧
    (get_stealth_stats (some ⟨0, 50, 7, 3, 9, 2⟩) 1 3).1.date = 1 :=
  (C6_stats_date_and_hour_reset ⟨0, 50, 7, 3, 9, 2⟩ 1 3).1 (by decide)

/-- Counterexample to C7 as stated: operations other than
`increment_download_count` write the stats file.  `get_stealth_stats` on an
up-to-date date but a stale hour persists an hourly-reset document different
from the stored one, and `check_session_break` at the session threshold
performs a write as well. -/
theorem C7_counterexample_other_writes :
    (get_stealth_stats (some ⟨0, 5, 7, 3, 2, 1⟩) 0 4).2
        = some ⟨0, 5, 0, 4, 2, 1⟩ ∧
    (⟨0, 5, 0, 4, 2, 1⟩ : ThrottleState) ≠ ⟨0, 5, 7, 3, 2, 1⟩ ∧
    (check_session_break ⟨true, 3, none, 2, 5⟩ (some ⟨0, 5, 7, 4, 2, 1⟩)
        0 4 1).2 ≠ [] := by
  refine ⟨rfl, by decide, by decide⟩

/-- C7 amended: the stats file is written by `increment_download_count` on
every call, by `get_stealth_stats` exactly when the loaded document's hour
differs from the current hour (the hourly-reset write), and by
`check_session_break` (when stealth mode is on) exactly when the loaded
`session_tracks` has reached the threshold — in which case the write is the
loaded state with `session_tracks` zeroed — in addition to any hourly-reset
write of its inner `get_stealth_stats` call. -/
theorem C7_amended_write_discipline (persisted : Option ThrottleState)
    (today : ℤ) (nowHour : ℕ) (nowTime : ℚ) (cfg : StealthConfig) (u : ℚ) :
    ((increment_download_count persisted today nowHour nowTime).2 ≠ []) ∧
    ((get_stealth_stats persisted today nowHour).2
      = if (load_stats persisted today nowHour).hour ≠ nowHour
        then some { load_stats persisted today nowHour with
                      hour := nowHour, tracks_this_hour := 0 }
        else none) ∧
    ((check_session_break cfg persisted today nowHour u).2
      = if cfg.stealth_mode_enabled then
          (get_stealth_stats persisted today nowHour).2.toList ++
          (if cfg.stealth_session_break_tracks ≤
              (get_stealth_stats persisted today nowHour).1.session_tracks
           then [{ (get_stealth_stats persisted today nowHour).1 with
                     session_tracks := 0 }]
           else [])
        else []) := by
  refine ⟨?_, ?_, ?_⟩
  · unfold increment_download_count
    rcases get_stealth_stats persisted today nowHour with ⟨stats, w⟩
    simp
  · unfold get_stealth_stats
    by_cases hh : (load_stats persisted today nowHour).hour = nowHour
    · simp [hh]
    · simp [hh]
  · unfold check_session_break
    by_cases he : cfg.stealth_mode_enabled
    · rcases hg : get_stealth_stats persisted today nowHour with ⟨stats, w⟩
      by_cases hth : stats.session_tracks ≥ cfg.stealth_session_break_tracks
      · simp [he, hg, hth]
      · simp [he, hg, hth]
    · simp [he]

/-- Witness for C7 amended: with a current date and hour, a fresh download
persists exactly one document, `get_stealth_stats` writes nothing and
`check_session_break` below threshold writes nothing. -/
theorem C7_amended_write_discipline_witness :
    ((increment_download_count (some ⟨0, 5, 2, 4, 1, 0⟩) 0 4 99).2 ≠ []) ∧
    ((get_stealth_stats (some ⟨0, 5, 2, 4, 1, 0⟩) 0 4).2 = none) ∧
    ((check_session_break ⟨true, 3, none, 15, 5⟩ (some ⟨0, 5, 2, 4, 1, 0⟩)
        0 4 1).2 = []) := by
  have h := C7_amended_write_discipline (some ⟨0, 5, 2, 4, 1, 0⟩) 0 4 99
    ⟨true, 3, none, 15, 5⟩ 1
  refine ⟨h.1, ?_, ?_⟩
  · rw [h.2.1]; decide
  · rw [h.2.2]; decide

/-- C8: `calculate_stealth_delay` never returns a negative duration, even on
negative configured delays; with stealth mode off or a service other than
`"apple_music"` it is the clamped global `download_delay`; with stealth mode
on for `"apple_music"` it is the clamped fixed `stealth_min_delay` (default
30); and the song duration argument never affects the result. -/
theorem C8_delay_nonneg_and_fixed (cfg : StealthConfig) (dur : ℚ)
    (service : String) :
    (0 ≤ calculate_stealth_delay cfg dur service) ∧
    (¬cfg.stealth_mode_enabled ∨ service ≠ "apple_music" →
      calculate_stealth_delay cfg dur service = max cfg.download_delay 0) ∧
    (cfg.stealth_mode_enabled ∧ service = "apple_music" →
      calculate_stealth_delay cfg dur service
        = max (cfg.stealth_min_delay.getD 30) 0) ∧
    (∀ dur2 : ℚ, calculate_stealth_delay cfg dur service
        = calculate_stealth_delay cfg dur2 service) := by
  unfold calculate_stealth_delay
  by_cases h : ¬cfg.stealth_mode_enabled ∨ service ≠ "apple_music"
  · rw [if_pos h]
    refine ⟨le_max_right _ _, fun _ => rfl, fun hc => ?_, fun dur2 => rfl⟩
    rcases h with h | h
    · exact absurd hc.1 h
    · exact absurd hc.2 h
  · rw [if_neg h]
    exact ⟨le_max_right _ _, fun hc => absurd hc h, fun _ => rfl,
      fun dur2 => rfl⟩

/-- Witness for C8: a negative `stealth_min_delay` of −2 still yields a
non-negative delay, and with stealth off a negative `download_delay` of −3 is
clamped to `max (−3) 0`. -/
theorem C8_delay_nonneg_and_fixed_witness :
    (0 ≤ calculate_stealth_delay ⟨true, -5, some (-2), 15, 5⟩ 1000 "apple_music") ∧
    (calculate_stealth_delay ⟨false, -3, none, 15, 5⟩ 1000 "deezer"
      = max (-3) 0) :=
  ⟨(C8_delay_nonneg_and_fixed ⟨true, -5, some (-2), 15, 5⟩ 1000 "apple_music").1,
   (C8_delay_nonneg_and_fixed ⟨false, -3, none, 15, 5⟩ 1000 "deezer").2.1
     (by exact Or.inl (by decide))⟩

/-- Counterexample to C9 as stated: with stealth mode disabled,
`check_session_break` returns `(false, 0)` even though the current
`session_tracks` (20, current date and hour, so loaded unchanged) is at the
configured threshold (15) — so "needsBreak is true exactly when
session_tracks is at least the threshold" fails on the code. -/
theorem C9_counterexample_disabled_mode :
    ((⟨0, 30, 3, 10, 20, 0⟩ : ThrottleState).session_tracks ≥
      (⟨false, 3, none, 15, 5⟩ : StealthConfig).stealth_session_break_tracks) ∧
    (check_session_break ⟨false, 3, none, 15, 5⟩ (some ⟨0, 30, 3, 10, 20, 0⟩)
        0 10 1).1 = (false, 0) := by
  refine ⟨by decide, rfl⟩

/-- C9 amended: with stealth mode disabled, `check_session_break` always
returns `(false, 0)` and writes nothing.  With stealth mode enabled, it
returns `needsBreak = true` exactly when the loaded (date/hour-adjusted)
`session_tracks` is at least the threshold; in that case the duration is
`break_minutes · 60 · u` for the random factor `u ∈ [0.8, 1.2]` — hence
within `[0.8 · breakMinutes · 60, 1.2 · breakMinutes · 60]` for a
non-negative configured `breakMinutes` — and the state persisted last has
`session_tracks` reset to 0; below the threshold it returns `(false, 0)`. -/
theorem C9_session_break_threshold (cfg : StealthConfig)
    (persisted : Option ThrottleState) (today : ℤ) (nowHour : ℕ) (u : ℚ)
    (hu1 : 4/5 ≤ u) (hu2 : u ≤ 6/5)
    (hbm : 0 ≤ cfg.stealth_session_break_minutes) :
    (cfg.stealth_mode_enabled = false →
      check_session_break cfg persisted today nowHour u = ((false, 0), [])) ∧
    (cfg.stealth_mode_enabled = true →
      ((check_session_break cfg persisted today nowHour u).1.1 = true ↔
        cfg.stealth_session_break_tracks ≤
          (get_stealth_stats persisted today nowHour).1.session_tracks) ∧
      (cfg.stealth_session_break_tracks ≤
          (get_stealth_stats persisted today nowHour).1.session_tracks →
        (check_session_break cfg persisted today nowHour u).1.2
            = cfg.stealth_session_break_minutes * 60 * u ∧
        4/5 * (cfg.stealth_session_break_minutes * 60) ≤
          (check_session_break cfg persisted today nowHour u).1.2 ∧
        (check_session_break cfg persisted today nowHour u).1.2 ≤
          6/5 * (cfg.stealth_session_break_minutes * 60) ∧
        (check_session_break cfg persisted today nowHour u).2
          = (get_stealth_stats persisted today nowHour).2.toList ++
            [{ (get_stealth_stats persisted today nowHour).1 with
                 session_tracks := 0 }]) ∧
      ((get_stealth_stats persisted today nowHour).1.session_tracks <
          cfg.stealth_session_break_tracks →
        (check_session_break cfg persisted today nowHour u).1 = (false, 0))) := by
  have hB : (0 : ℚ) ≤ cfg.stealth_session_break_minutes * 60 := by positivity
  constructor
  · intro hdis
    unfold check_session_break
    simp [hdis]
  · intro hen
    rcases hg : get_stealth_stats persisted today nowHour with ⟨stats, w⟩
    by_cases hth : cfg.stealth_session_break_tracks ≤ stats.session_tracks
    · have hrun : check_session_break cfg persisted today nowHour u
          = ((true, cfg.stealth_session_break_minutes * 60 * u),
             w.toList ++ [{ stats with session_tracks := 0 }]) := by
        unfold check_session_break
        simp [hen, hg, hth]
      refine ⟨by rw [hrun]; simpa using hth, fun _ => ?_, fun hc => ?_⟩
      · refine ⟨by rw [hrun], ?_, ?_, by rw [hrun]⟩
        · rw [hrun]
          have := mul_le_mul_of_nonneg_left hu1 hB
          nlinarith
        · rw [hrun]
          have := mul_le_mul_of_nonneg_left hu2 hB
          nlinarith
      · exact absurd hth (not_le.mpr hc)
    · have hrun : check_session_break cfg persisted today nowHour u
          = ((false, 0), w.toList) := by
        unfold check_session_break
        simp [hen, hg, hth]
      refine ⟨by rw [hrun]; simpa using hth, fun hc => ?_, fun _ => by rw [hrun]⟩
      exact absurd hc hth

/-- Witness for C9 amended: with stealth on, threshold 2, `session_tracks`
3 and `u = 1`, the call reports a break of `5·60·1 = 300` seconds, inside
`[240, 360]`. -/
theorem C9_session_break_threshold_witness :
    ((check_session_break ⟨true, 3, none, 2, 5⟩ (some ⟨0, 9, 9, 4, 3, 0⟩)
        0 4 1).1.1 = true) ∧
    ((check_session_break ⟨true, 3, none, 2, 5⟩ (some ⟨0, 9, 9, 4, 3, 0⟩)
        0 4 1).1.2 = 5 * 60 * 1) := by
  have h := (C9_session_break_threshold ⟨true, 3, none, 2, 5⟩
    (some ⟨0, 9, 9, 4, 3, 0⟩) 0 4 1 (by norm_num) (by norm_num)
    (by norm_num)).2 rfl
  exact ⟨h.1.mpr (by decide), (h.2.1 (by decide)).1⟩

end OnTheSpot
